import Mathlib

/-!
Shallow embedding of `pdf_to_epub.py` (PDF → EPUB converter) and proofs of the
spec claims about it.  Word positions (`x0`, `top`) are modelled as rationals;
Python lists become Lean lists; the pdfplumber/ebooklib collaborators are
abstracted at the function boundaries the claims talk about.
-/

namespace PdfToEpub

/-- A positioned word as returned by `page.extract_words()`:
text content, bounding-box left edge `x0`, vertical position `top`. -/
structure Word where
  x0 : ℚ
  top : ℚ
  text : String
deriving DecidableEq, Repr

/-- A visual line as built in `extract_paragraphs_from_page`
(`{'x0': x0, 'text': text, 'top': top}`). -/
structure Line where
  x0 : ℚ
  text : String
  top : ℚ
deriving DecidableEq, Repr

/-- Python's `' '.join` / `sep.join` on a list of strings. -/
def joinWith (sep : String) : List String → String
  | [] => ""
  | [t] => t
  | t :: ts => t ++ sep ++ joinWith sep ts

/-- Python's `str.strip()` on the character list: drop leading and trailing
whitespace. -/
def stripChars (l : List Char) : List Char :=
  (((l.dropWhile Char.isWhitespace).reverse.dropWhile Char.isWhitespace).reverse)

/-- Python's `str.strip()` (executable model of the builtin). -/
def pyStrip (s : String) : String := String.mk (stripChars s.data)

/-- Does `pre` occur at the head of `l`?  Model of Python's `str.startswith`
at the character-list level. -/
def leadsWith : List Char → List Char → Bool
  | [], _ => true
  | _ :: _, [] => false
  | a :: as, b :: bs => a == b && leadsWith as bs

/-- Python's `str.startswith`. -/
def pyStartsWith (s pre : String) : Bool := leadsWith pre.data s.data

/-- Python's `str.endswith`. -/
def pyEndsWith (s suf : String) : Bool := leadsWith suf.data.reverse s.data.reverse

/-- Python's `round(word['top'], 1)`: round to one decimal place. -/
def roundTop (q : ℚ) : ℚ := ((round (10 * q) : ℤ) : ℚ) / 10

/-- The words of `lines_by_top[t]`: all words whose rounded `top` is `t`,
in extraction order. -/
def wordsAtTop (ws : List Word) (t : ℚ) : List Word :=
  ws.filter (fun w => decide (roundTop w.top = t))

/-- The list `sorted(lines_by_top[t], key=lambda w: w['x0'])`: the words of one line,
stably sorted by ascending `x0`. -/
def lineWords (ws : List Word) (t : ℚ) : List Word :=
  (wordsAtTop ws t).mergeSort (fun a b => decide (a.x0 ≤ b.x0))

/-- The list `sorted(lines_by_top.keys())`: the distinct rounded `top` values,
in ascending order. -/
def sortedTops (ws : List Word) : List ℚ :=
  ((ws.map (fun w => roundTop w.top)).dedup).mergeSort (fun a b => decide (a ≤ b))

/-- One entry of the `lines` list: `x0` of the leftmost word, word texts
joined by single spaces, the (rounded) `top`. -/
def mkLine (ws : List Word) (t : ℚ) : Line :=
  { x0 := match lineWords ws t with
          | [] => 0
          | w :: _ => w.x0
    text := joinWith " " ((lineWords ws t).map Word.text)
    top := t }

/-- The Line Grouper (lines 46–64 of `extract_paragraphs_from_page`):
group words into lines by rounded `top`, sorted top to bottom. -/
def groupLines (ws : List Word) : List Line :=
  (sortedTops ws).map (mkLine ws)

/-- One iteration of the paragraph loop (lines 70–90): state is
`(paragraphs, current_para_lines)`. -/
def paraStep (it mb : ℚ) (acc : List String × List String) (line : Line) :
    List String × List String :=
  let text := pyStrip line.text
  if text = "" then acc
  else if mb < line.x0 then acc
  else if it < line.x0 ∧ acc.2 ≠ [] then
    (acc.1 ++ [joinWith " " acc.2], [text])
  else
    (acc.1, acc.2 ++ [text])

/-- The Paragraph Segmenter (lines 66–96 of `extract_paragraphs_from_page`):
fold the paragraph loop over the grouped lines, then flush the last
accumulation. -/
def build_paragraphs (lines : List Line) (it mb : ℚ) : List String :=
  let acc := lines.foldl (paraStep it mb) ([], [])
  if acc.2 = [] then acc.1 else acc.1 ++ [joinWith " " acc.2]

/-- The function `extract_paragraphs_from_page(page, indent_threshold, max_body_x0)`,
with the page replaced by its extracted word list. -/
def extract_paragraphs_from_page (ws : List Word) (it mb : ℚ) : List String :=
  if ws.isEmpty then [] else build_paragraphs (groupLines ws) it mb

/-- Membership in a grouped line is exactly membership in the word list with
the matching rounded `top`. -/
theorem mem_lineWords (ws : List Word) (t : ℚ) (w : Word) :
    w ∈ lineWords ws t ↔ w ∈ ws ∧ roundTop w.top = t := by
  rw [lineWords, List.mem_mergeSort, wordsAtTop, List.mem_filter]
  simp

/-- The word sequence of each grouped line is sorted by ascending `x0`. -/
theorem lineWords_sorted_x0 (ws : List Word) (t : ℚ) :
    ((lineWords ws t).map Word.x0).Sorted (· ≤ ·) := by
  rw [List.Sorted, List.pairwise_map]
  have h := @List.sorted_mergeSort Word (fun a b : Word => decide (a.x0 ≤ b.x0))
    (fun a b c hab hbc =>
      decide_eq_true (le_trans (of_decide_eq_true hab) (of_decide_eq_true hbc)))
    (fun a b => Bool.or_eq_true _ _ |>.mpr
      ((le_total a.x0 b.x0).imp decide_eq_true decide_eq_true))
    (wordsAtTop ws t)
  rw [lineWords]
  exact h.imp (fun hab => of_decide_eq_true hab)

/-- The distinct rounded tops are listed in strictly increasing order. -/
theorem sortedTops_sorted (ws : List Word) : (sortedTops ws).Sorted (· < ·) := by
  have hle : (sortedTops ws).Sorted (· ≤ ·) := by
    have h := @List.sorted_mergeSort ℚ (fun a b : ℚ => decide (a ≤ b))
      (fun a b c hab hbc =>
        decide_eq_true (le_trans (of_decide_eq_true hab) (of_decide_eq_true hbc)))
      (fun a b => Bool.or_eq_true _ _ |>.mpr
        ((le_total a b).imp decide_eq_true decide_eq_true))
      ((ws.map (fun w => roundTop w.top)).dedup)
    rw [sortedTops]
    exact h.imp (fun hab => of_decide_eq_true hab)
  have hnd : (sortedTops ws).Nodup := by
    rw [sortedTops]
    exact (List.mergeSort_perm _ _).symm.nodup (List.nodup_dedup _)
  exact hle.lt_of_le hnd

/-- Every rounded top in `sortedTops` has at least one word. -/
theorem lineWords_ne_nil (ws : List Word) (t : ℚ) (ht : t ∈ sortedTops ws) :
    lineWords ws t ≠ [] := by
  rw [sortedTops, List.mem_mergeSort, List.mem_dedup, List.mem_map] at ht
  obtain ⟨w, hw, hwt⟩ := ht
  intro hnil
  have : w ∈ lineWords ws t := (mem_lineWords ws t w).mpr ⟨hw, hwt⟩
  rw [hnil] at this
  exact List.not_mem_nil w this

/-- C6: the Line Grouper places a word in the line keyed by its rounded
vertical position (and lines hold only such words); lines are ordered by
strictly ascending rounded `top`; within a line the words are sorted by
ascending `x0`; each line's text joins its word texts with single spaces
and its `x0` is the `x0` of its leftmost (minimal-`x0`) word. -/
theorem c6_line_grouping (ws : List Word) :
    (∀ w ∈ ws, w ∈ lineWords ws (roundTop w.top))
    ∧ (∀ t : ℚ, ∀ w ∈ lineWords ws t, w ∈ ws ∧ roundTop w.top = t)
    ∧ ((groupLines ws).map Line.top).Sorted (· < ·)
    ∧ (∀ t : ℚ, ((lineWords ws t).map Word.x0).Sorted (· ≤ ·))
    ∧ (∀ l ∈ groupLines ws,
        l.text = joinWith " " ((lineWords ws l.top).map Word.text)
        ∧ ∃ w0 ∈ lineWords ws l.top,
            l.x0 = w0.x0 ∧ ∀ w ∈ lineWords ws l.top, w0.x0 ≤ w.x0) := by
  refine ⟨?_, ?_, ?_, lineWords_sorted_x0 ws, ?_⟩
  · intro w hw
    exact (mem_lineWords ws (roundTop w.top) w).mpr ⟨hw, rfl⟩
  · intro t w hw
    exact (mem_lineWords ws t w).mp hw
  · have : (groupLines ws).map Line.top = sortedTops ws := by
      rw [groupLines, List.map_map]
      exact List.map_id _
    rw [this]
    exact sortedTops_sorted ws
  · intro l hl
    rw [groupLines, List.mem_map] at hl
    obtain ⟨t, ht, rfl⟩ := hl
    have htop : (mkLine ws t).top = t := rfl
    refine ⟨rfl, ?_⟩
    obtain ⟨w0, rest, hcons⟩ : ∃ w0 rest, lineWords ws t = w0 :: rest := by
      cases h : lineWords ws t with
      | nil => exact absurd h (lineWords_ne_nil ws t ht)
      | cons a as => exact ⟨a, as, rfl⟩
    rw [htop, hcons]
    refine ⟨w0, List.mem_cons_self w0 rest, ?_, ?_⟩
    · show (match lineWords ws t with
            | [] => (0 : ℚ)
            | w :: _ => w.x0) = w0.x0
      rw [hcons]
    · have hsorted := lineWords_sorted_x0 ws t
      rw [hcons, List.map_cons, List.Sorted, List.pairwise_cons] at hsorted
      intro w hw
      rcases List.mem_cons.mp hw with rfl | hw
      · exact le_refl w.x0
      · exact hsorted.1 w.x0 (List.mem_map_of_mem Word.x0 hw)

unseal List.merge List.mergeSort in
/-- Witness for C6 at a concrete two-word page. -/
theorem c6_line_grouping_witness :
    ((⟨60, 10, "world"⟩ : Word) ∈ [(⟨60, 10, "world"⟩ : Word), ⟨30, 10, "hello"⟩])
    ∧ (⟨60, 10, "world"⟩ : Word)
        ∈ lineWords [(⟨60, 10, "world"⟩ : Word), ⟨30, 10, "hello"⟩] (roundTop 10) :=
  ⟨by decide,
   (c6_line_grouping [⟨60, 10, "world"⟩, ⟨30, 10, "hello"⟩]).1
     ⟨60, 10, "world"⟩ (by decide)⟩

/-- A line the loop skips (`x0 > max_body_x0`, line 78) leaves the
accumulator unchanged. -/
theorem paraStep_skip (it mb : ℚ) (acc : List String × List String) (l : Line)
    (h : mb < l.x0) : paraStep it mb acc l = acc := by
  simp [paraStep, h]

/-- The paragraph fold ignores lines with `x0 > max_body_x0`. -/
theorem foldl_paraStep_filter (it mb : ℚ) (lines : List Line)
    (acc : List String × List String) :
    (lines.filter (fun l => decide (l.x0 ≤ mb))).foldl (paraStep it mb) acc
      = lines.foldl (paraStep it mb) acc := by
  induction lines generalizing acc with
  | nil => rfl
  | cons l ls ih =>
    by_cases h : l.x0 ≤ mb
    · simp only [List.filter_cons, decide_eq_true h, if_pos, List.foldl_cons]
      exact ih _
    · have hskip : paraStep it mb acc l = acc := paraStep_skip it mb acc l (not_le.mp h)
      simp only [List.filter_cons, decide_eq_false h, List.foldl_cons, hskip]
      exact ih _

/-- C3: for every line sequence and thresholds, the Paragraph Segmenter's
output is unchanged when every line with `x0 > max_body_x0` is deleted:
such a line contributes nothing (not even a space or break) to any
paragraph, so its text never enters the output. -/
theorem c3_far_right_lines_contribute_nothing (lines : List Line) (it mb : ℚ) :
    build_paragraphs lines it mb
      = build_paragraphs (lines.filter (fun l => decide (l.x0 ≤ mb))) it mb := by
  unfold build_paragraphs
  rw [foldl_paraStep_filter]

/-- C1: a page whose grouped lines sit at `x0` = [30, 30, 50, 30], each with
non-empty stripped text, with `indent_threshold = 45` and all `x0` at most
`max_body_x0`, yields exactly the two paragraphs "line1 line2" and
"line3 line4" (texts joined by single spaces). -/
theorem c1_indent_scenario (t1 t2 t3 t4 : String) (q1 q2 q3 q4 mb : ℚ)
    (h1 : pyStrip t1 ≠ "") (h2 : pyStrip t2 ≠ "") (h3 : pyStrip t3 ≠ "")
    (h4 : pyStrip t4 ≠ "")
    (h30 : (30 : ℚ) ≤ mb) (h50 : (50 : ℚ) ≤ mb) :
    build_paragraphs
        [⟨30, t1, q1⟩, ⟨30, t2, q2⟩, ⟨50, t3, q3⟩, ⟨30, t4, q4⟩] 45 mb
      = [pyStrip t1 ++ " " ++ pyStrip t2, pyStrip t3 ++ " " ++ pyStrip t4]
    ∧ ∀ ws : List Word, ws.isEmpty = false →
        groupLines ws = [⟨30, t1, q1⟩, ⟨30, t2, q2⟩, ⟨50, t3, q3⟩, ⟨30, t4, q4⟩] →
        extract_paragraphs_from_page ws 45 mb
          = [pyStrip t1 ++ " " ++ pyStrip t2, pyStrip t3 ++ " " ++ pyStrip t4] := by
  have n30 : ¬ (mb < 30) := not_lt.mpr h30
  have n50 : ¬ (mb < 50) := not_lt.mpr h50
  have i30 : ¬ ((45 : ℚ) < 30) := by norm_num
  have i50 : (45 : ℚ) < 50 := by norm_num
  have hmain : build_paragraphs
      [⟨30, t1, q1⟩, ⟨30, t2, q2⟩, ⟨50, t3, q3⟩, ⟨30, t4, q4⟩] 45 mb
      = [pyStrip t1 ++ " " ++ pyStrip t2, pyStrip t3 ++ " " ++ pyStrip t4] := by
    simp [build_paragraphs, paraStep, joinWith, h1, h2, h3, h4, n30, n50, i30, i50]
  refine ⟨hmain, fun ws hws hgl => ?_⟩
  rw [extract_paragraphs_from_page, hws, if_neg Bool.false_ne_true, hgl]
  exact hmain

/-- Witness for C1 at concrete line texts. -/
theorem c1_indent_scenario_witness :
    build_paragraphs
        [⟨30, "line1 text", 10⟩, ⟨30, "line2 text", 20⟩,
         ⟨50, "line3 text", 30⟩, ⟨30, "line4 text", 40⟩] 45 100
      = [pyStrip "line1 text" ++ " " ++ pyStrip "line2 text",
         pyStrip "line3 text" ++ " " ++ pyStrip "line4 text"] :=
  (c1_indent_scenario "line1 text" "line2 text" "line3 text" "line4 text"
    10 20 30 40 100 (by decide) (by decide) (by decide) (by decide)
    (by norm_num) (by norm_num)).1

/-- C7: a page with zero extracted words yields the empty paragraph list
(the function is total, so no error is possible). -/
theorem c7_zero_words (it mb : ℚ) : extract_paragraphs_from_page [] it mb = [] := rfl

/-- A page record as built by `extract_text_from_pdf`:
`{"page_number": i, "text": "\n\n".join(paragraphs)}`
(the `paragraphs` field is not consumed by `create_epub`). -/
structure Page where
  page_number : Nat
  text : String
deriving DecidableEq, Repr

/-- The chapter text blob of one page group (lines 170–173 of `create_epub`):
`"\n\n".join(f"<!-- Page {p['page_number']} -->\n{p['text']}" for p in group if p['text'])`. -/
def chapterBlob (group : List Page) : String :=
  joinWith "\n\n"
    ((group.filter (fun p => decide (p.text ≠ ""))).map
      (fun p => "<!-- Page " ++ toString p.page_number ++ " -->\n" ++ p.text))

/-- The page-slicing loop of `create_epub`
(`for i in range(0, len(pages), chapter_pages)` with
`chapter_num = i // chapter_pages + 1` and group `pages[i:i+chapter_pages]`),
rendered as recursion on the page list: `j` is the current chapter number.
Faithful to the Python loop for `chapter_pages ≥ 1` (Python raises on step 0). -/
def chapterGroups (k : Nat) : Nat → List Page → List (Nat × List Page)
  | _, [] => []
  | j, p :: ps => (j, p :: ps.take (k - 1)) :: chapterGroups k (j + 1) (ps.drop (k - 1))
termination_by _ ps => ps.length
decreasing_by simp [List.length_drop]; omega

/-- The chapters emitted by `create_epub` as (chapter number, chapter blob)
pairs: a group whose blob strips to empty is skipped
(`if not chapter_text.strip(): continue`, line 179). -/
def createEpubChapters (pages : List Page) (k : Nat) : List (Nat × String) :=
  (chapterGroups k 1 pages).filterMap (fun jg =>
    if pyStrip (chapterBlob jg.2) = "" then none else some (jg.1, chapterBlob jg.2))

/-- The groups cover the page list exactly, in order. -/
theorem chapterGroups_flatten (k : Nat) :
    ∀ (ps : List Page) (j : Nat), ((chapterGroups k j ps).map Prod.snd).flatten = ps
  | [], _ => by simp [chapterGroups]
  | p :: ps, j => by
    rw [chapterGroups]
    simp only [List.map_cons, List.flatten_cons]
    rw [chapterGroups_flatten k (ps.drop (k - 1)) (j + 1)]
    simp
termination_by ps _ => ps.length
decreasing_by simp [List.length_drop]; omega

/-- The chapter numbers are consecutive starting from the initial number. -/
theorem chapterGroups_fst (k : Nat) :
    ∀ (ps : List Page) (j : Nat),
      (chapterGroups k j ps).map Prod.fst = List.range' j (chapterGroups k j ps).length
  | [], _ => by simp [chapterGroups]
  | p :: ps, j => by
    rw [chapterGroups]
    simp only [List.map_cons, List.length_cons, List.range'_succ]
    rw [chapterGroups_fst k (ps.drop (k - 1)) (j + 1)]
termination_by ps _ => ps.length
decreasing_by simp [List.length_drop]; omega

/-- Each group with number `j'` is the slice `ps[(j'-j)*k : (j'-j)*k + k]`,
is non-empty, and has at most `k` pages. -/
theorem chapterGroups_mem (k : Nat) (hk : 1 ≤ k) :
    ∀ (ps : List Page) (j : Nat) (jg : Nat × List Page), jg ∈ chapterGroups k j ps →
      j ≤ jg.1 ∧ jg.2 = (ps.drop ((jg.1 - j) * k)).take k ∧ jg.2 ≠ [] ∧ jg.2.length ≤ k
  | [], _, _, h => by simp [chapterGroups] at h
  | p :: ps, j, jg, h => by
    rw [chapterGroups, List.mem_cons] at h
    rcases h with h | h
    · subst h
      refine ⟨le_refl j, ?_, by simp, ?_⟩
      · obtain ⟨m, rfl⟩ : ∃ m, k = m + 1 := ⟨k - 1, by omega⟩
        simp [List.take_succ_cons]
      · have := List.length_take_le (k - 1) ps
        simp only [List.length_cons]
        omega
    · obtain ⟨h1, h2, h3, h4⟩ := chapterGroups_mem k hk (ps.drop (k - 1)) (j + 1) jg h
      refine ⟨by omega, ?_, h3, h4⟩
      rw [h2, List.drop_drop]
      have h5 : jg.1 - j = (jg.1 - (j + 1)) + 1 := by omega
      have harith : (k - 1) + (jg.1 - (j + 1)) * k = (jg.1 - j) * k - 1 := by
        rw [h5, Nat.succ_mul]
        omega
      rw [harith]
      have hpos : 1 ≤ (jg.1 - j) * k := by
        rw [h5, Nat.succ_mul]
        omega
      obtain ⟨m, hm⟩ : ∃ m, (jg.1 - j) * k = m + 1 := ⟨(jg.1 - j) * k - 1, by omega⟩
      rw [hm]
      simp
termination_by ps _ _ _ => ps.length
decreasing_by simp [List.length_drop]; omega

/-- The spec's 10-page example: pages 7–9 are entirely blank. -/
def examplePages : List Page :=
  [⟨1, "p1"⟩, ⟨2, "p2"⟩, ⟨3, "p3"⟩, ⟨4, "p4"⟩, ⟨5, "p5"⟩, ⟨6, "p6"⟩,
   ⟨7, ""⟩, ⟨8, ""⟩, ⟨9, ""⟩, ⟨10, "p10"⟩]

unseal chapterGroups in
/-- C2: for `chapter_pages = k ≥ 1`, `create_epub` partitions the pages into
contiguous non-overlapping groups of up to `k` pages in order (group `j` is
the slice `pages[(j-1)*k : (j-1)*k + k]`); a group whose blob strips to
empty emits no chapter, every emitted chapter carries its group's 1-based
position as its number, so dropped groups leave numbering gaps; on the
10-page example with `k = 3` and pages 7–9 blank, exactly the chapters
numbered 1, 2, 4 are emitted. -/
theorem c2_chapter_grouping (pages : List Page) (k : Nat) (hk : 1 ≤ k) :
    (((chapterGroups k 1 pages).map Prod.snd).flatten = pages)
    ∧ ((chapterGroups k 1 pages).map Prod.fst
        = List.range' 1 (chapterGroups k 1 pages).length)
    ∧ (∀ jg ∈ chapterGroups k 1 pages,
        jg.2 = (pages.drop ((jg.1 - 1) * k)).take k ∧ jg.2 ≠ [] ∧ jg.2.length ≤ k)
    ∧ (∀ jg ∈ chapterGroups k 1 pages,
        (pyStrip (chapterBlob jg.2) = "" → ∀ s, (jg.1, s) ∉ createEpubChapters pages k)
        ∧ (pyStrip (chapterBlob jg.2) ≠ "" →
            (jg.1, chapterBlob jg.2) ∈ createEpubChapters pages k))
    ∧ (∀ c ∈ createEpubChapters pages k, ∃ jg, jg ∈ chapterGroups k 1 pages ∧
        c = (jg.1, chapterBlob jg.2) ∧ pyStrip (chapterBlob jg.2) ≠ "")
    ∧ (createEpubChapters examplePages 3).map Prod.fst = [1, 2, 4] := by
  have hnd : ((chapterGroups k 1 pages).map Prod.fst).Nodup := by
    rw [chapterGroups_fst k pages 1]
    exact List.nodup_range' 1 _
  refine ⟨chapterGroups_flatten k pages 1, chapterGroups_fst k pages 1, ?_, ?_, ?_, ?_⟩
  · intro jg h
    exact (chapterGroups_mem k hk pages 1 jg h).2
  · intro jg h
    constructor
    · intro hblank s hmem
      rw [createEpubChapters, List.mem_filterMap] at hmem
      obtain ⟨jg', hjg', heq⟩ := hmem
      by_cases hb : pyStrip (chapterBlob jg'.2) = ""
      · rw [if_pos hb] at heq
        exact Option.noConfusion heq
      · rw [if_neg hb] at heq
        have hpair : (jg'.1, chapterBlob jg'.2) = (jg.1, s) := Option.some.inj heq
        have hfst : jg'.1 = jg.1 := (Prod.ext_iff.mp hpair).1
        have : jg' = jg := List.inj_on_of_nodup_map hnd hjg' h hfst
        rw [this] at hb
        exact hb hblank
    · intro hne
      rw [createEpubChapters, List.mem_filterMap]
      exact ⟨jg, h, by rw [if_neg hne]⟩
  · intro c hc
    rw [createEpubChapters, List.mem_filterMap] at hc
    obtain ⟨jg, hjg, heq⟩ := hc
    by_cases hb : pyStrip (chapterBlob jg.2) = ""
    · rw [if_pos hb] at heq
      exact Option.noConfusion heq
    · rw [if_neg hb] at heq
      exact ⟨jg, hjg, (Option.some.inj heq).symm, hb⟩
  · decide

/-- Witness for C2 at the 10-page example with `chapter_pages = 3`. -/
theorem c2_chapter_grouping_witness :
    1 ≤ 3 ∧ (createEpubChapters examplePages 3).map Prod.fst = [1, 2, 4] :=
  ⟨by decide, (c2_chapter_grouping examplePages 3 (by decide)).2.2.2.2.2⟩

/-- One character of Python's `html.escape(s, quote=True)` (stdlib collaborator
used at line 276): `&`, `<`, `>`, `"` and the apostrophe become entities. -/
def escapeChar (c : Char) : String :=
  if c = '&' then "&amp;"
  else if c = '<' then "&lt;"
  else if c = '>' then "&gt;"
  else if c = '"' then "&quot;"
  else if c = Char.ofNat 39 then "&#x27;"
  else String.mk [c]

/-- Python's `html.escape` on a character list. -/
def escData : List Char → List Char
  | [] => []
  | c :: l => (escapeChar c).data ++ escData l

/-- Python's `html.escape(s, quote=True)`. -/
def htmlEscape (s : String) : String := String.mk (escData s.data)

/-- Entity decoder used to state that escaping is faithful: it inverts
`escData` on escaped output. -/
def unescData : List Char → List Char
  | [] => []
  | c :: rest =>
    if c = '&' then
      if leadsWith ['a', 'm', 'p', ';'] rest then '&' :: unescData (rest.drop 4)
      else if leadsWith ['l', 't', ';'] rest then '<' :: unescData (rest.drop 3)
      else if leadsWith ['g', 't', ';'] rest then '>' :: unescData (rest.drop 3)
      else if leadsWith ['q', 'u', 'o', 't', ';'] rest then '"' :: unescData (rest.drop 5)
      else if leadsWith ['#', 'x', '2', '7', ';'] rest then
        Char.ofNat 39 :: unescData (rest.drop 5)
      else c :: unescData rest
    else c :: unescData rest
termination_by l => l.length
decreasing_by all_goals (simp [List.length_drop]; try omega)

/-- String-level entity decoder. -/
def pyUnescape (s : String) : String := String.mk (unescData s.data)

/-- Python's `str.split(sep)` for a non-empty separator `s0 :: srest`:
`acc` holds the current (reversed) piece. -/
def splitSepAux (s0 : Char) (srest : List Char) : List Char → List Char → List (List Char)
  | [], acc => [acc.reverse]
  | c :: rest, acc =>
    if leadsWith (s0 :: srest) (c :: rest) then
      acc.reverse :: splitSepAux s0 srest (rest.drop srest.length) []
    else
      splitSepAux s0 srest rest (c :: acc)
termination_by l _ => l.length
decreasing_by all_goals (simp [List.length_drop]; try omega)

/-- Python's `str.split(sep)` (the converter only calls it with non-empty
separators; Python raises on an empty one). -/
def pySplit (s : String) (sep : String) : List String :=
  match sep.data with
  | [] => [s]
  | s0 :: srest => (splitSepAux s0 srest s.data []).map String.mk

/-- Python's `para.split("\n", 1)`: `none` when `para` has no newline,
otherwise the text before and after the first newline. -/
def breakAtNewline : List Char → Option (List Char × List Char)
  | [] => none
  | c :: rest =>
    if c = '\n' then some ([], rest)
    else
      match breakAtNewline rest with
      | none => none
      | some pr => some (c :: pr.1, pr.2)

/-- The body of the candidate loop of `text_to_html` (lines 256–277):
`none` when the candidate is dropped, otherwise the emitted fragment. -/
def candidateToHtml (para0 : String) : Option String :=
  let para := pyStrip para0
  if para = "" then none
  else if pyStartsWith para "<!--" && pyEndsWith para "-->" then none
  else if pyStartsWith para "<!-- Page" then
    match breakAtNewline para.data with
    | none => none
    | some pr =>
      let q := pyStrip (String.mk pr.2)
      if q = "" then none else some ("<p>" ++ htmlEscape q ++ "</p>")
  else some ("<p>" ++ htmlEscape para ++ "</p>")

/-- The fragments collected by `text_to_html`. -/
def textToHtmlParts (text : String) : List String :=
  (pySplit text "\n\n").filterMap candidateToHtml

/-- The function `text_to_html(text)` (lines 240–279). -/
def text_to_html (text : String) : String := joinWith "\n" (textToHtmlParts text)

/-- Escaped output never contains a raw `<`, `>`, `"` or apostrophe. -/
theorem escData_no_raw : ∀ (l : List Char), ∀ c ∈ escData l,
    c ≠ '<' ∧ c ≠ '>' ∧ c ≠ '"' ∧ c ≠ Char.ofNat 39 := by
  intro l
  induction l with
  | nil => intro c hc; simp [escData] at hc
  | cons a l ih =>
    intro c hc
    rw [escData] at hc
    rcases List.mem_append.mp hc with h | h
    · by_cases h1 : a = '&'
      · subst h1
        simp only [escapeChar, if_pos rfl] at h
        have : c ∈ ['&', 'a', 'm', 'p', ';'] := h
        fin_cases this <;> decide
      · by_cases h2 : a = '<'
        · subst h2
          simp only [escapeChar, reduceIte] at h
          have : c ∈ ['&', 'l', 't', ';'] := h
          fin_cases this <;> decide
        · by_cases h3 : a = '>'
          · subst h3
            simp only [escapeChar, reduceIte] at h
            have : c ∈ ['&', 'g', 't', ';'] := h
            fin_cases this <;> decide
          · by_cases h4 : a = '"'
            · subst h4
              simp only [escapeChar, reduceIte] at h
              have : c ∈ ['&', 'q', 'u', 'o', 't', ';'] := h
              fin_cases this <;> decide
            · by_cases h5 : a = Char.ofNat 39
              · subst h5
                simp only [escapeChar, reduceIte] at h
                have : c ∈ ['&', '#', 'x', '2', '7', ';'] := h
                fin_cases this <;> decide
              · simp only [escapeChar, if_neg h1, if_neg h2, if_neg h3, if_neg h4,
                  if_neg h5] at h
                have : c ∈ [a] := h
                rcases List.mem_singleton.mp this with rfl
                exact ⟨h2, h3, h4, h5⟩
    · exact ih c h

/-- The entity decoder inverts `html.escape` on every input: escaping is
faithful, every special character is recoverable from its entity. -/
theorem unescData_escData : ∀ l : List Char, unescData (escData l) = l := by
  intro l
  induction l with
  | nil => simp [escData, unescData]
  | cons c l ih =>
    rw [escData]
    by_cases h1 : c = '&'
    · subst h1
      show unescData ('&' :: 'a' :: 'm' :: 'p' :: ';' :: escData l) = '&' :: l
      rw [unescData]
      simp [leadsWith, ih]
    · by_cases h2 : c = '<'
      · subst h2
        show unescData ('&' :: 'l' :: 't' :: ';' :: escData l) = '<' :: l
        rw [unescData]
        simp [leadsWith, ih]
      · by_cases h3 : c = '>'
        · subst h3
          show unescData ('&' :: 'g' :: 't' :: ';' :: escData l) = '>' :: l
          rw [unescData]
          simp [leadsWith, ih]
        · by_cases h4 : c = '"'
          · subst h4
            show unescData ('&' :: 'q' :: 'u' :: 'o' :: 't' :: ';' :: escData l) = '"' :: l
            rw [unescData]
            simp [leadsWith, ih]
          · by_cases h5 : c = Char.ofNat 39
            · subst h5
              show unescData ('&' :: '#' :: 'x' :: '2' :: '7' :: ';' :: escData l)
                  = Char.ofNat 39 :: l
              rw [unescData]
              simp [leadsWith, ih]
            · have hblock : (escapeChar c).data = [c] := by
                simp only [escapeChar, if_neg h1, if_neg h2, if_neg h3, if_neg h4, if_neg h5]
              rw [hblock]
              show unescData (c :: escData l) = c :: l
              rw [unescData]
              simp [h1, ih]

/-- Every fragment emitted by `text_to_html` wraps an escaped candidate. -/
theorem candidateToHtml_shape (cand part : String)
    (h : candidateToHtml cand = some part) :
    ∃ p, part = "<p>" ++ htmlEscape p ++ "</p>" := by
  simp only [candidateToHtml] at h
  split at h
  · exact Option.noConfusion h
  · split at h
    · exact Option.noConfusion h
    · split at h
      · split at h
        · exact Option.noConfusion h
        · split at h
          · exact Option.noConfusion h
          · exact ⟨_, (Option.some.inj h).symm⟩
      · exact ⟨_, (Option.some.inj h).symm⟩

/-- C5: every fragment `text_to_html` emits is `<p>` + `html.escape` of some
candidate text + `</p>`; the escaped content holds no raw `<`, `>`, `"` or
apostrophe, and decoding the entities recovers the source text exactly
(so every `&` in it is an entity the decoder consumes). -/
theorem c5_html_escaping (text part : String) (hp : part ∈ textToHtmlParts text) :
    ∃ p, part = "<p>" ++ htmlEscape p ++ "</p>"
      ∧ (∀ c ∈ (htmlEscape p).data, c ≠ '<' ∧ c ≠ '>' ∧ c ≠ '"' ∧ c ≠ Char.ofNat 39)
      ∧ pyUnescape (htmlEscape p) = p := by
  rw [textToHtmlParts, List.mem_filterMap] at hp
  obtain ⟨cand, _, hsome⟩ := hp
  obtain ⟨p, rfl⟩ := candidateToHtml_shape cand part hsome
  refine ⟨p, rfl, fun c hc => escData_no_raw p.data c hc, ?_⟩
  rw [pyUnescape, htmlEscape]
  rw [show (String.mk (escData p.data)).data = escData p.data from rfl, unescData_escData]

unseal splitSepAux in
/-- Witness for C5 on the blob `"a&b"`. -/
theorem c5_html_escaping_witness :
    ("<p>a&amp;b</p>" ∈ textToHtmlParts "a&b")
    ∧ ∃ p, "<p>a&amp;b</p>" = "<p>" ++ htmlEscape p ++ "</p>"
        ∧ (∀ c ∈ (htmlEscape p).data, c ≠ '<' ∧ c ≠ '>' ∧ c ≠ '"' ∧ c ≠ Char.ofNat 39)
        ∧ pyUnescape (htmlEscape p) = p :=
  ⟨by decide, c5_html_escaping "a&b" "<p>a&amp;b</p>" (by decide)⟩

unseal splitSepAux in
/-- C4: the chapter blob with two page markers renders to exactly the two
fragments `<p>Hello world.</p>` and `<p>Goodbye.</p>`: marker lines are
stripped and no marker-only paragraph is emitted. -/
theorem c4_marker_blob_rendering :
    textToHtmlParts "<!-- Page 1 -->\nHello world.\n\n<!-- Page 2 -->\nGoodbye."
      = ["<p>Hello world.</p>", "<p>Goodbye.</p>"]
    ∧ text_to_html "<!-- Page 1 -->\nHello world.\n\n<!-- Page 2 -->\nGoodbye."
      = "<p>Hello world.</p>\n<p>Goodbye.</p>" := by
  refine ⟨by decide, ?_⟩
  rw [text_to_html]
  rw [show textToHtmlParts "<!-- Page 1 -->\nHello world.\n\n<!-- Page 2 -->\nGoodbye."
      = ["<p>Hello world.</p>", "<p>Goodbye.</p>"] by decide]
  rfl

/-- C10: any candidate whose stripped text starts with `<!--` and ends with
`-->` is dropped by `text_to_html` — even a multi-line candidate with real
content between the delimiters — and contributes nothing to the output. -/
theorem c10_comment_candidate_dropped (text cand : String)
    (_hmem : cand ∈ pySplit text "\n\n")
    (h1 : pyStartsWith (pyStrip cand) "<!--" = true)
    (h2 : pyEndsWith (pyStrip cand) "-->" = true) :
    candidateToHtml cand = none
    ∧ ∀ pre post, pySplit text "\n\n" = pre ++ cand :: post →
        textToHtmlParts text = pre.filterMap candidateToHtml
          ++ post.filterMap candidateToHtml := by
  have hnone : candidateToHtml cand = none := by
    simp only [candidateToHtml]
    have hne : ¬ (pyStrip cand = "") := by
      intro h0
      rw [h0] at h1
      exact Bool.noConfusion h1
    rw [if_neg hne, if_pos (by rw [h1, h2]; rfl)]
  refine ⟨hnone, fun pre post hsplit => ?_⟩
  rw [textToHtmlParts, hsplit, List.filterMap_append, List.filterMap_cons, hnone]

unseal splitSepAux in
/-- Witness for C10 on a single multi-line comment candidate carrying real
content between the delimiters. -/
theorem c10_comment_candidate_dropped_witness :
    ("<!-- Page 1 -->\nReal content here -->"
        ∈ pySplit "<!-- Page 1 -->\nReal content here -->" "\n\n")
    ∧ candidateToHtml "<!-- Page 1 -->\nReal content here -->" = none :=
  ⟨by decide,
   (c10_comment_candidate_dropped "<!-- Page 1 -->\nReal content here -->"
      "<!-- Page 1 -->\nReal content here -->" (by decide) (by decide) (by decide)).1⟩

/-- The function `extract_text_from_pdf` (lines 99–123) with the PDF reader abstracted to
the per-page word lists it yields: pages are numbered from 1 and carry
`"\n\n".join(paragraphs)` as text. -/
def extract_text_from_pdf (wordPages : List (List Word)) (it mb : ℚ) : List Page :=
  wordPages.enum.map (fun ie =>
    { page_number := ie.1 + 1
      text := joinWith "\n\n" (extract_paragraphs_from_page ie.2 it mb) })

/-- The full text pipeline: words per page → paragraphs → page records →
(chapter number, chapter text) pairs. -/
def pipelineChapters (wordPages : List (List Word)) (it mb : ℚ) (k : Nat) :
    List (Nat × String) :=
  createEpubChapters (extract_text_from_pdf wordPages it mb) k

/-- C9: segmentation and chapter aggregation are deterministic functions of
the extracted word sets and the configuration: two runs on equal inputs
yield identical chapter texts. -/
theorem c9_pipeline_deterministic (w1 w2 : List (List Word)) (it1 it2 mb1 mb2 : ℚ)
    (k1 k2 : Nat) (hw : w1 = w2) (hit : it1 = it2) (hmb : mb1 = mb2) (hk : k1 = k2) :
    pipelineChapters w1 it1 mb1 k1 = pipelineChapters w2 it2 mb2 k2 := by
  rw [hw, hit, hmb, hk]

/-- Witness for C9 on a one-page input. -/
theorem c9_pipeline_deterministic_witness :
    pipelineChapters [[⟨30, 10, "hello"⟩]] 45 100 1
      = pipelineChapters [[⟨30, 10, "hello"⟩]] 45 100 1 :=
  c9_pipeline_deterministic [[⟨30, 10, "hello"⟩]] [[⟨30, 10, "hello"⟩]]
    45 45 100 100 1 1 rfl rfl rfl rfl

/-- The environment `main` runs in (lines 344–410): whether the input path
exists, whether its lowered suffix is `.pdf`, the resolved output path, and
the outcomes of the two fallible collaborator calls
(`extract_text_from_pdf`, `create_epub`). -/
structure CliEnv where
  inputExists : Bool
  inputExtLowerIsPdf : Bool
  outputPath : String
  extractResult : Except String (List Page)
  epubResult : Except String Unit

/-- What a run of `main` produces: the process exit code, whether the
non-PDF-extension warning was printed, and the success message if any. -/
structure CliOutcome where
  exitCode : Nat
  warnedNonPdf : Bool
  successMsg : Option String
deriving DecidableEq, Repr

/-- The control flow of `main` (lines 344–410): missing input exits 1 before
any work; a non-`.pdf` suffix only warns; extraction failure, zero pages and
EPUB-assembly failure each exit 1; otherwise exit 0 with the success
message naming the output path. -/
def main_run (env : CliEnv) : CliOutcome :=
  if ¬ env.inputExists then ⟨1, false, none⟩
  else
    let warned := ¬ env.inputExtLowerIsPdf
    match env.extractResult with
    | .error _ => ⟨1, warned, none⟩
    | .ok pages =>
      if pages.isEmpty then ⟨1, warned, none⟩
      else
        match env.epubResult with
        | .error _ => ⟨1, warned, none⟩
        | .ok _ => ⟨0, warned, some ("Successfully created: " ++ env.outputPath)⟩

/-- C8: `main` exits 1 exactly on missing input, extraction failure, zero
pages, or assembly failure; otherwise it exits 0 and prints the success
message naming the output path; a non-`.pdf` extension only toggles the
warning and never affects the exit code. -/
theorem c8_cli_exit_codes (env : CliEnv) :
    (env.inputExists = false → main_run env = ⟨1, false, none⟩)
    ∧ (∀ e, env.inputExists = true → env.extractResult = .error e →
        (main_run env).exitCode = 1 ∧ (main_run env).successMsg = none)
    ∧ (env.inputExists = true → env.extractResult = .ok [] →
        (main_run env).exitCode = 1 ∧ (main_run env).successMsg = none)
    ∧ (∀ pages e, env.inputExists = true → env.extractResult = .ok pages →
        pages ≠ [] → env.epubResult = .error e →
        (main_run env).exitCode = 1 ∧ (main_run env).successMsg = none)
    ∧ (∀ pages, env.inputExists = true → env.extractResult = .ok pages →
        pages ≠ [] → env.epubResult = .ok () →
        (main_run env).exitCode = 0
        ∧ (main_run env).successMsg = some ("Successfully created: " ++ env.outputPath))
    ∧ ((main_run env).warnedNonPdf = (env.inputExists && !env.inputExtLowerIsPdf))
    ∧ (∀ b, (main_run { env with inputExtLowerIsPdf := b }).exitCode
        = (main_run env).exitCode) := by
  obtain ⟨ex, pdf, out, extr, ep⟩ := env
  refine ⟨?_, ?_, ?_, ?_, ?_, ?_, ?_⟩
  · intro h
    subst h
    rfl
  · intro e h he
    subst h he
    simp [main_run]
  · intro h he
    subst h he
    simp [main_run]
  · intro pages e h he hne hep
    subst h he hep
    simp [main_run, List.isEmpty_iff, hne]
  · intro pages h he hne hep
    subst h he hep
    simp [main_run, List.isEmpty_iff, hne]
  · cases ex <;> cases pdf <;> cases extr with
    | _ => first
      | rfl
      | (rename_i pages; by_cases hp : pages.isEmpty <;> cases ep <;>
          simp [main_run, hp])
  · intro b
    cases ex <;> cases extr with
    | _ => first
      | rfl
      | (rename_i pages; by_cases hp : pages.isEmpty <;> cases ep <;>
          simp [main_run, hp])

/-- Witness for C8 on a fully successful environment. -/
theorem c8_cli_exit_codes_witness :
    ((⟨true, true, "out.epub", .ok [⟨1, "p1"⟩], .ok ()⟩ : CliEnv).inputExists = true)
    ∧ (main_run ⟨true, true, "out.epub", .ok [⟨1, "p1"⟩], .ok ()⟩).exitCode = 0
    ∧ (main_run ⟨true, true, "out.epub", .ok [⟨1, "p1"⟩], .ok ()⟩).successMsg
        = some ("Successfully created: " ++ "out.epub") :=
  ⟨rfl,
   ((c8_cli_exit_codes ⟨true, true, "out.epub", .ok [⟨1, "p1"⟩], .ok ()⟩).2.2.2.2.1
      [⟨1, "p1"⟩] rfl rfl (by decide) rfl).1,
   ((c8_cli_exit_codes ⟨true, true, "out.epub", .ok [⟨1, "p1"⟩], .ok ()⟩).2.2.2.2.1
      [⟨1, "p1"⟩] rfl rfl (by decide) rfl).2⟩

end PdfToEpub
